import Mathlib

/-!
Shallow embedding of the offline-first meal cache and sync subsystem of the
Prism Metabolic Console client (src/services/offline.ts).

The Dexie/IndexedDB `meals` table is modelled as an insertion-ordered list of
rows together with the auto-increment counter; the `syncMeta` key/value table
as a record of two optional cells.  `Date` values are modelled as natural
numbers (millisecond timestamps); ISO `YYYY-MM-DD` date strings are kept as
strings, whose lexicographic order coincides with calendar order.  Effects
that depend on the environment (the generated UUID, the wall clock, the
computed 30-day cutoff date, the network round-trip outcome) are passed as
explicit parameters.
-/

namespace Prism

/-- `syncStatus` of a cached meal row: 'PENDING' | 'SYNCED' | 'CONFLICT'. -/
inductive SyncStatus where
  | PENDING
  | SYNCED
  | CONFLICT
deriving DecidableEq, Repr

/-- The persisted scheduler status: 'idle' | 'syncing' | 'error'. -/
inductive MetaStatus where
  | idle
  | syncing
  | error
deriving DecidableEq, Repr

/-- A row of the `meals` table (interface `CachedMeal` in offline.ts).
`mealType` and `category` are kept as strings: the source casts raw wire
strings into them with `as`. -/
structure CachedMeal where
  id : Nat
  clientId : String
  serverId : Option Nat := none
  name : String
  portion : String
  calories : Int
  sodium : Int
  purine : Int
  protein : Option Int := none
  carbs : Option Int := none
  fat : Option Int := none
  fiber : Option Int := none
  mealType : String
  category : String
  recordDate : String
  note : Option String := none
  imageUrl : Option String := none
  aiRecognized : Bool
  syncStatus : SyncStatus
  createdAt : Nat
  updatedAt : Nat
deriving DecidableEq, Repr

/-- A TypeScript `Partial<CachedMeal>` change set as accepted by
`OfflineMealsService.update`: every property optional, `none` meaning the key
is absent.  (`id` is the Dexie primary key and cannot be rewritten through
`Table.update`, so it is not part of the change set.) -/
structure MealChanges where
  clientId : Option String := none
  serverId : Option Nat := none
  name : Option String := none
  portion : Option String := none
  calories : Option Int := none
  sodium : Option Int := none
  purine : Option Int := none
  protein : Option Int := none
  carbs : Option Int := none
  fat : Option Int := none
  fiber : Option Int := none
  mealType : Option String := none
  category : Option String := none
  recordDate : Option String := none
  note : Option String := none
  imageUrl : Option String := none
  aiRecognized : Option Bool := none
  syncStatus : Option SyncStatus := none
  createdAt : Option Nat := none
  updatedAt : Option Nat := none
deriving DecidableEq, Repr

/-- Merge one optional property of a change set over the old value. -/
def setOpt {α : Type} (c old : Option α) : Option α :=
  match c with
  | some v => some v
  | none => old

/-- Apply a `Partial<CachedMeal>` change set to a row, key by key (the
semantics of spreading `...changes` into a Dexie update). -/
def applyChanges (c : MealChanges) (m : CachedMeal) : CachedMeal :=
  { m with
    clientId := c.clientId.getD m.clientId
    serverId := setOpt c.serverId m.serverId
    name := c.name.getD m.name
    portion := c.portion.getD m.portion
    calories := c.calories.getD m.calories
    sodium := c.sodium.getD m.sodium
    purine := c.purine.getD m.purine
    protein := setOpt c.protein m.protein
    carbs := setOpt c.carbs m.carbs
    fat := setOpt c.fat m.fat
    fiber := setOpt c.fiber m.fiber
    mealType := c.mealType.getD m.mealType
    category := c.category.getD m.category
    recordDate := c.recordDate.getD m.recordDate
    note := setOpt c.note m.note
    imageUrl := setOpt c.imageUrl m.imageUrl
    aiRecognized := c.aiRecognized.getD m.aiRecognized
    syncStatus := c.syncStatus.getD m.syncStatus
    createdAt := c.createdAt.getD m.createdAt
    updatedAt := c.updatedAt.getD m.updatedAt }

/-- The row produced by `OfflineMealsService.update` for the matched id: the
change set spread first, then `updatedAt` and `syncStatus` forced. -/
def updateRow (c : MealChanges) (now : Nat) (m : CachedMeal) : CachedMeal :=
  { applyChanges c m with
    updatedAt := now, syncStatus := SyncStatus.PENDING }

/-- The Dexie update `markSynced` applies to the matched row. -/
def markSyncedRow (sid now : Nat) (m : CachedMeal) : CachedMeal :=
  { m with
    serverId := some sid, syncStatus := SyncStatus.SYNCED, updatedAt := now }

/-- Lexicographic comparison of character lists by code point. -/
def charsLt : List Char → List Char → Bool
  | [], [] => false
  | [], _ :: _ => true
  | _ :: _, [] => false
  | a :: as, b :: bs =>
      if a.toNat < b.toNat then true
      else if b.toNat < a.toNat then false
      else charsLt as bs

/-- The JavaScript `<` on strings, restricted to the ASCII `YYYY-MM-DD` date
strings the code compares: plain lexicographic order, which on such strings
coincides with calendar order. -/
def strLt (a b : String) : Bool := charsLt a.data b.data

/-- The `meals` object store: rows in insertion order plus the `++id`
auto-increment counter. -/
structure MealsTable where
  rows : List CachedMeal
  nextId : Nat
deriving DecidableEq, Repr

/-- The argument of `OfflineMealsService.add`:
`Omit<CachedMeal, 'id' | 'clientId' | 'syncStatus' | 'createdAt' | 'updatedAt'>`
(note that `serverId` is not omitted by the source type). -/
structure NewMeal where
  serverId : Option Nat := none
  name : String
  portion : String
  calories : Int
  sodium : Int
  purine : Int
  protein : Option Int := none
  carbs : Option Int := none
  fat : Option Int := none
  fiber : Option Int := none
  mealType : String
  category : String
  recordDate : String
  note : Option String := none
  imageUrl : Option String := none
  aiRecognized : Bool
deriving DecidableEq, Repr

/-- A wire-format server record as consumed by
`OfflineMealsService.mergeFromServer` (and produced in `response.server_meals`
of the sync API): snake_case keys, no `image_url`. -/
structure ServerMeal where
  id : Nat
  client_id : String
  name : String
  portion : String
  calories : Int
  sodium : Int
  purine : Int
  protein : Option Int := none
  carbs : Option Int := none
  fat : Option Int := none
  fiber : Option Int := none
  meal_type : String
  category : String
  record_date : String
  note : Option String := none
  ai_recognized : Bool
deriving DecidableEq, Repr

/-- The Dexie update the overwrite branch of `mergeFromServer` applies to the
local row matching a server record (`imageUrl` and `createdAt` are not in the
update object and stay local). -/
def serverOverwrite (sm : ServerMeal) (now : Nat) (m : CachedMeal) :
    CachedMeal :=
  { m with
    serverId := some sm.id, name := sm.name, portion := sm.portion,
    calories := sm.calories, sodium := sm.sodium, purine := sm.purine,
    protein := sm.protein, carbs := sm.carbs, fat := sm.fat,
    fiber := sm.fiber, mealType := sm.meal_type, category := sm.category,
    recordDate := sm.record_date, note := sm.note,
    aiRecognized := sm.ai_recognized, syncStatus := SyncStatus.SYNCED,
    updatedAt := now }

/-- The fresh local row the insert branch of `mergeFromServer` adds for a
server record with no local match (no `image_url` on the wire, so none is
stored). -/
def serverInsertRow (sm : ServerMeal) (nid now : Nat) : CachedMeal :=
  { id := nid, clientId := sm.client_id, serverId := some sm.id,
    name := sm.name, portion := sm.portion, calories := sm.calories,
    sodium := sm.sodium, purine := sm.purine, protein := sm.protein,
    carbs := sm.carbs, fat := sm.fat, fiber := sm.fiber,
    mealType := sm.meal_type, category := sm.category,
    recordDate := sm.record_date, note := sm.note, imageUrl := none,
    aiRecognized := sm.ai_recognized, syncStatus := SyncStatus.SYNCED,
    createdAt := now, updatedAt := now }

namespace OfflineMealsService

/-- `OfflineMealsService.add`: build the new row (generated clientId `cid`,
`syncStatus = 'PENDING'`, both timestamps `now`), store it under the next
auto-increment id, and return it. -/
def add (m : NewMeal) (cid : String) (now : Nat) (t : MealsTable) :
    CachedMeal × MealsTable :=
  let newMeal : CachedMeal :=
    { id := t.nextId
      clientId := cid
      serverId := m.serverId
      name := m.name
      portion := m.portion
      calories := m.calories
      sodium := m.sodium
      purine := m.purine
      protein := m.protein
      carbs := m.carbs
      fat := m.fat
      fiber := m.fiber
      mealType := m.mealType
      category := m.category
      recordDate := m.recordDate
      note := m.note
      imageUrl := m.imageUrl
      aiRecognized := m.aiRecognized
      syncStatus := SyncStatus.PENDING
      createdAt := now
      updatedAt := now }
  (newMeal, ⟨t.rows ++ [newMeal], t.nextId + 1⟩)

/-- `OfflineMealsService.getPending`: all rows whose `syncStatus` is
`'PENDING'`. -/
def getPending (t : MealsTable) : List CachedMeal :=
  t.rows.filter (fun m => m.syncStatus == SyncStatus.PENDING)

/-- `OfflineMealsService.update`: merge the change set into the row with the
given id (a no-op when no such row exists, as in Dexie), then force
`updatedAt = now` and `syncStatus = 'PENDING'` — the two trailing keys of the
spread win over the change set. -/
def update (i : Nat) (c : MealChanges) (now : Nat) (t : MealsTable) :
    MealsTable :=
  { t with rows := t.rows.map (fun m =>
      if m.id = i then updateRow c now m else m) }

/-- `OfflineMealsService.delete`: remove the row with the given id. -/
def delete (i : Nat) (t : MealsTable) : MealsTable :=
  { t with rows := t.rows.filter (fun m => !(m.id == i)) }

/-- `OfflineMealsService.markSynced`: look up the first row with the given
clientId (Dexie `.where('clientId').equals(cid).first()`), and if found set
its `serverId`, `syncStatus = 'SYNCED'` and `updatedAt`. -/
def markSynced (cid : String) (sid : Nat) (now : Nat) (t : MealsTable) :
    MealsTable :=
  match t.rows.find? (fun m => m.clientId == cid) with
  | some meal =>
      { t with rows := t.rows.map (fun m =>
          if m.id = meal.id then markSyncedRow sid now m else m) }
  | none => t

/-- One iteration of the `mergeFromServer` loop: adopt a single server record,
overwriting the first local row with the same clientId when one exists,
inserting a fresh `'SYNCED'` row otherwise. -/
def mergeOne (now : Nat) (t : MealsTable) (sm : ServerMeal) : MealsTable :=
  match t.rows.find? (fun m => m.clientId == sm.client_id) with
  | some localMeal =>
      { t with rows := t.rows.map (fun m =>
          if m.id = localMeal.id then serverOverwrite sm now m else m) }
  | none =>
      ⟨t.rows ++ [serverInsertRow sm t.nextId now], t.nextId + 1⟩

/-- `OfflineMealsService.mergeFromServer`: adopt the whole server batch inside
one `db.transaction('rw', ...)`, processing the entries in order.  As one pure
transition of the model, the batch is all-or-nothing by construction. -/
def mergeFromServer (serverMeals : List ServerMeal) (now : Nat)
    (t : MealsTable) : MealsTable :=
  serverMeals.foldl (mergeOne now) t

end OfflineMealsService

/-- The `syncMeta` key/value table: the two keys the source ever writes,
each `none` when the key is absent. -/
structure SyncMetaState where
  lastSyncTime : Option Nat := none
  syncStatus : Option MetaStatus := none
deriving DecidableEq, Repr

namespace SyncMetaService

/-- `SyncMetaService.getSyncStatus`: the stored value, defaulting to 'idle'
when the key is absent. -/
def getSyncStatus (s : SyncMetaState) : MetaStatus :=
  s.syncStatus.getD MetaStatus.idle

/-- `SyncMetaService.setSyncStatus`. -/
def setSyncStatus (st : MetaStatus) (s : SyncMetaState) : SyncMetaState :=
  { s with syncStatus := some st }

/-- `SyncMetaService.setLastSyncTime`. -/
def setLastSyncTime (now : Nat) (s : SyncMetaState) : SyncMetaState :=
  { s with lastSyncTime := some now }

end SyncMetaService

namespace CacheCleanupService

/-- `CacheCleanupService.cleanupExpired`: collect the ids of the rows with
`syncStatus = 'SYNCED'` and `recordDate` strictly below the cutoff date
string, bulk-delete them, and return how many were deleted.  The cutoff (in
the source, today minus 30 days as `YYYY-MM-DD`) is passed in explicitly. -/
def cleanupExpired (cutoffDate : String) (t : MealsTable) :
    MealsTable × Nat :=
  let toDelete := t.rows.filter (fun m =>
    m.syncStatus == SyncStatus.SYNCED && strLt m.recordDate cutoffDate)
  let idsToDelete := toDelete.map (fun m => m.id)
  ({ t with rows := t.rows.filter (fun m => !(idsToDelete.contains m.id)) },
   idsToDelete.length)

/-- `CacheCleanupService.clearAll`: clear both tables (the IndexedDB
auto-increment counter is not reset by `clear`). -/
def clearAll (t : MealsTable) (_meta : SyncMetaState) :
    MealsTable × SyncMetaState :=
  (({ rows := [], nextId := t.nextId } : MealsTable),
   ({ lastSyncTime := none, syncStatus := none } : SyncMetaState))

end CacheCleanupService

/-- The parsed body of a successful `POST /meals/sync` response. -/
structure ServerResponse where
  synced_count : Nat
  conflicts : List String
  server_meals : List ServerMeal
deriving DecidableEq, Repr

/-- The persisted client state a sync cycle reads and writes. -/
structure AppState where
  meals : MealsTable
  meta : SyncMetaState
deriving DecidableEq, Repr

/-- `SyncScheduler.triggerSync` as one state transition.  Inputs: the
`navigator.onLine` flag, the outcome of the network round-trip (`none` = the
request throws), the wall clock, and the 30-day cutoff date used by the
post-sync cleanup.  Returns the new persisted state together with the number
of network requests issued. -/
def triggerSync (isOnline : Bool) (response : Option ServerResponse)
    (now : Nat) (cutoffDate : String) (s : AppState) : AppState × Nat :=
  if !isOnline then (s, 0)
  else if SyncMetaService.getSyncStatus s.meta = MetaStatus.syncing then (s, 0)
  else
    let s1 : AppState :=
      { s with meta := SyncMetaService.setSyncStatus MetaStatus.syncing s.meta }
    let pendingMeals := OfflineMealsService.getPending s1.meals
    if pendingMeals.isEmpty then
      ({ s1 with meta := SyncMetaService.setSyncStatus MetaStatus.idle s1.meta }, 0)
    else
      match response with
      | none =>
          ({ s1 with
              meta := SyncMetaService.setSyncStatus MetaStatus.error s1.meta }, 1)
      | some resp =>
          let meals1 := pendingMeals.foldl (fun acc meal =>
            if resp.conflicts.contains meal.clientId then acc
            else
              match resp.server_meals.find?
                  (fun sm => sm.client_id == meal.clientId) with
              | some serverMeal =>
                  OfflineMealsService.markSynced meal.clientId serverMeal.id now acc
              | none => acc) s1.meals
          let meals2 :=
            if resp.server_meals.isEmpty then meals1
            else OfflineMealsService.mergeFromServer resp.server_meals now meals1
          let meta1 :=
            SyncMetaService.setSyncStatus MetaStatus.idle
              (SyncMetaService.setLastSyncTime now s1.meta)
          let meals3 := (CacheCleanupService.cleanupExpired cutoffDate meals2).1
          (({ meals := meals3, meta := meta1 } : AppState), 1)

/-- Run a sequence of sync triggers, each with its own environment inputs,
accumulating the total number of network requests issued. -/
def runTriggers (inputs : List (Bool × Option ServerResponse × Nat × String))
    (s : AppState) : AppState × Nat :=
  inputs.foldl (fun acc inp =>
    let r := triggerSync inp.1 inp.2.1 inp.2.2.1 inp.2.2.2 acc.1
    (r.1, acc.2 + r.2)) (s, 0)

/-- The persisted state while a cycle's network request is outstanding: the
guards have passed and `triggerSync` has written `'syncing'` to `syncMeta`
before issuing the request. -/
def inFlight (s : AppState) : AppState :=
  { s with meta := SyncMetaService.setSyncStatus MetaStatus.syncing s.meta }

/-! ### Specification predicates -/

/-- The `meals` table is well formed: primary keys are distinct and below the
auto-increment counter (every table reachable from an empty store satisfies
this). -/
def WFIds (t : MealsTable) : Prop :=
  (t.rows.map (fun m => m.id)).Nodup ∧ ∀ m ∈ t.rows, m.id < t.nextId

/-- The data-model invariant of claim C7: every `'SYNCED'` row carries a
server id. -/
def SyncedHasServerId (t : MealsTable) : Prop :=
  ∀ m ∈ t.rows, m.syncStatus = SyncStatus.SYNCED → m.serverId ≠ none

/-- Every row of `t` survives into `t2` with its primary key and its
`clientId` intact. -/
def PreservesIds (t t2 : MealsTable) : Prop :=
  ∀ m ∈ t.rows, ∃ m2 ∈ t2.rows, m2.id = m.id ∧ m2.clientId = m.clientId

/-- Row `m` is the locally adopted copy of the server record `sm`: correlated
by clientId, carrying the server id, marked `'SYNCED'`, and agreeing with
every field the wire record carries. -/
def adoptedRow (sm : ServerMeal) (m : CachedMeal) : Prop :=
  m.clientId = sm.client_id ∧ m.serverId = some sm.id ∧
  m.syncStatus = SyncStatus.SYNCED ∧ m.name = sm.name ∧ m.portion = sm.portion ∧
  m.calories = sm.calories ∧ m.sodium = sm.sodium ∧ m.purine = sm.purine ∧
  m.protein = sm.protein ∧ m.carbs = sm.carbs ∧ m.fat = sm.fat ∧
  m.fiber = sm.fiber ∧ m.mealType = sm.meal_type ∧ m.category = sm.category ∧
  m.recordDate = sm.record_date ∧ m.note = sm.note ∧
  m.aiRecognized = sm.ai_recognized

/-- Overwrite branch of the claim: every batch entry that has a matching
local row (same clientId) leaves that row itself — same primary key —
carrying the server values, the server id and `'SYNCED'`. -/
def MergeOverwritesMatch (sms : List ServerMeal) (t t2 : MealsTable) : Prop :=
  ∀ sm ∈ sms, ∀ m ∈ t.rows, m.clientId = sm.client_id →
    ∃ m2 ∈ t2.rows, m2.id = m.id ∧ adoptedRow sm m2

/-- Insert branch of the claim: every batch entry with no matching local
row gains a freshly inserted adopted row (its id is at least the old
auto-increment counter, so it is none of the pre-existing rows). -/
def MergeInsertsForeign (sms : List ServerMeal) (t t2 : MealsTable) : Prop :=
  ∀ sm ∈ sms, (∀ m ∈ t.rows, m.clientId ≠ sm.client_id) →
    ∃ m2 ∈ t2.rows, t.nextId ≤ m2.id ∧ adoptedRow sm m2

/-- No duplication: any row that is new after the merge (fresh primary key)
belongs to a batch entry that had no local match — a matched entry never
causes an insertion. -/
def MergeNewRowsForeign (sms : List ServerMeal) (t t2 : MealsTable) : Prop :=
  ∀ m2 ∈ t2.rows, t.nextId ≤ m2.id →
    ∃ sm ∈ sms, m2.clientId = sm.client_id ∧
      ∀ m ∈ t.rows, m.clientId ≠ sm.client_id

/-- Frame: a local row whose clientId appears nowhere in the batch survives
the merge completely unchanged. -/
def MergeUntouchedRows (sms : List ServerMeal) (t t2 : MealsTable) : Prop :=
  ∀ m ∈ t.rows, (∀ sm ∈ sms, m.clientId ≠ sm.client_id) → m ∈ t2.rows

/-- The table `t2` contains the result of editing row `m` at time `now`:
same row (by id) now `'PENDING'` with a fresh `updatedAt`, while `serverId`,
`clientId` and `createdAt` are those of `m`. -/
def EditResetsSync (m : CachedMeal) (now : Nat) (t2 : MealsTable) : Prop :=
  ∃ m2 ∈ t2.rows, m2.id = m.id ∧ m2.syncStatus = SyncStatus.PENDING ∧
    m2.updatedAt = now ∧ m2.serverId = m.serverId ∧ m2.clientId = m.clientId ∧
    m2.createdAt = m.createdAt

/-! ### Concrete fixtures for witnesses and counterexamples -/

/-- A baseline pending row used by several concrete scenarios. -/
def mealA : CachedMeal :=
  { id := 1, clientId := "ca", serverId := none, name := "rice",
    portion := "1 bowl", calories := 200, sodium := 5, purine := 10,
    mealType := "LUNCH", category := "STAPLE", recordDate := "2026-01-05",
    aiRecognized := false, syncStatus := SyncStatus.PENDING,
    createdAt := 1, updatedAt := 1 }

/-- A second pending row, the one the server will flag as conflicting. -/
def mealB : CachedMeal :=
  { mealA with id := 2, clientId := "cb", name := "fish", calories := 150 }

/-- Store with the two pending rows `mealA`, `mealB`. -/
def conflictTable : MealsTable := ⟨[mealA, mealB], 3⟩

/-- App state at the start of the conflict scenario (fresh `syncMeta`). -/
def conflictState : AppState := ⟨conflictTable, {}⟩

/-- Wire copy of `mealA` as the server returns it, with server id 101. -/
def serverMealA : ServerMeal :=
  { id := 101, client_id := "ca", name := "rice", portion := "1 bowl",
    calories := 200, sodium := 5, purine := 10, meal_type := "LUNCH",
    category := "STAPLE", record_date := "2026-01-05", ai_recognized := false }

/-- Server response of the conflict scenario: `mealB`'s clientId flagged in
`conflicts`, `mealA` adopted with server id 101. -/
def conflictResp : ServerResponse := ⟨1, ["cb"], [serverMealA]⟩

/-- A pending row for the scheduler witnesses. -/
def schedState : AppState := ⟨⟨[mealA], 2⟩, ⟨some 4, some MetaStatus.idle⟩⟩

/-- A fully synced copy of `mealA`. -/
def mealASynced : CachedMeal :=
  { mealA with syncStatus := SyncStatus.SYNCED, serverId := some 33 }

/-- A state with no pending rows at all. -/
def noPendingState : AppState :=
  ⟨⟨[mealASynced], 2⟩, ⟨some 4, some MetaStatus.idle⟩⟩

/-- A state whose persisted scheduler status is stuck at `'syncing'`. -/
def stuckState : AppState := ⟨⟨[mealA], 2⟩, ⟨some 4, some MetaStatus.syncing⟩⟩

/-- A burst of three triggers with varying environments. -/
def burstInputs : List (Bool × Option ServerResponse × Nat × String) :=
  [(true, some conflictResp, 6, "2025-12-31"),
   (false, none, 7, "2025-12-31"),
   (true, none, 8, "2025-12-31")]

/-- A synced row dated exactly at the retention cutoff used below. -/
def mealAtCutoff : CachedMeal :=
  { mealA with
    id := 1, clientId := "k1", recordDate := "2026-09-11",
    syncStatus := SyncStatus.SYNCED, serverId := some 51 }

/-- A synced row dated one day before the cutoff. -/
def mealDayOlder : CachedMeal :=
  { mealA with
    id := 2, clientId := "k2", recordDate := "2026-09-10",
    syncStatus := SyncStatus.SYNCED, serverId := some 52 }

/-- A pending row far older than the cutoff. -/
def mealOldPending : CachedMeal :=
  { mealA with
    id := 3, clientId := "k3", recordDate := "2024-01-01",
    syncStatus := SyncStatus.PENDING, serverId := none }

/-- Store for the retention-boundary scenario (cutoff "2026-09-11"). -/
def retentionTable : MealsTable :=
  ⟨[mealAtCutoff, mealDayOlder, mealOldPending], 4⟩

/-- An ordinary edit: change the name and the calorie estimate. -/
def editChanges : MealChanges :=
  { name := some "tofu", calories := some 120 }

/-- A change set that smuggles a new clientId (legal for the TypeScript type
`Partial<CachedMeal>` and not excluded by claim C3's side condition). -/
def cexChanges3 : MealChanges := { clientId := some "stolen" }

/-- A one-row store for the C3 counterexample. -/
def cexTable3 : MealsTable :=
  ⟨[{ mealASynced with clientId := "orig" }], 2⟩

/-- A different clientId-rewriting change set for the C8 counterexample. -/
def cexChanges8 : MealChanges := { clientId := some "hijacked" }

/-- A one-row store for the C8 counterexample. -/
def cexTable8 : MealsTable :=
  ⟨[{ mealA with id := 4, clientId := "orig8" }], 5⟩

/-- A one-row store for the merge witness: only "ca" exists locally. -/
def mergeTable : MealsTable := ⟨[mealA], 2⟩

/-- A fresh meal as the UI would submit it to `add`. -/
def newMealFx : NewMeal :=
  { name := "egg", portion := "1 piece", calories := 70, sodium := 1,
    purine := 1, mealType := "BREAKFAST", category := "MEAT",
    recordDate := "2026-01-07", aiRecognized := false }

/-- A foreign server record: no local row carries its clientId. -/
def serverMealD : ServerMeal :=
  { id := 104, client_id := "cd", name := "soup", portion := "1 cup",
    calories := 80, sodium := 3, purine := 2, meal_type := "DINNER",
    category := "VEG", record_date := "2026-01-06", ai_recognized := true }

end Prism

/-! ## Theorems -/

namespace Prism

/-- `triggerSync` is a complete no-op whenever the persisted scheduler status
reads `'syncing'`, online or not: same state back, zero network requests. -/
theorem triggerSync_noop_of_syncing (b : Bool) (resp : Option ServerResponse)
    (now : Nat) (cutoff : String) (s : AppState)
    (h : SyncMetaService.getSyncStatus s.meta = MetaStatus.syncing) :
    triggerSync b resp now cutoff s = (s, 0) := by
  cases b with
  | false => rfl
  | true => simp [triggerSync, h]

/-- C2 — error handling.  If the network round-trip of a sync cycle fails
(the sync request throws), the cycle leaves every meal row exactly as it was
(in particular every `'PENDING'` row is still `'PENDING'` with unchanged
fields), records `syncMeta.syncStatus = 'error'`, does not advance
`lastSyncTime`, and made the single failed request. -/
theorem sync_request_failure_leaves_records_untouched
    (s : AppState) (now : Nat) (cutoff : String)
    (hns : SyncMetaService.getSyncStatus s.meta ≠ MetaStatus.syncing)
    (hp : OfflineMealsService.getPending s.meals ≠ []) :
    (triggerSync true none now cutoff s).1.meals = s.meals ∧
    (triggerSync true none now cutoff s).1.meta.syncStatus =
      some MetaStatus.error ∧
    (triggerSync true none now cutoff s).1.meta.lastSyncTime =
      s.meta.lastSyncTime ∧
    (triggerSync true none now cutoff s).2 = 1 := by
  have hpe : (OfflineMealsService.getPending s.meals).isEmpty = false := by
    cases hgp : OfflineMealsService.getPending s.meals with
    | nil => exact absurd hgp hp
    | cons a l => rfl
  refine ⟨?_, ?_, ?_, ?_⟩ <;>
    simp [triggerSync, hns, hpe, SyncMetaService.setSyncStatus]

/-- Witness for C2 at a concrete state with one pending row. -/
theorem sync_request_failure_leaves_records_untouched_witness :
    (triggerSync true none 9 "2025-12-31" schedState).1.meals =
      schedState.meals ∧
    (triggerSync true none 9 "2025-12-31" schedState).1.meta.syncStatus =
      some MetaStatus.error ∧
    (triggerSync true none 9 "2025-12-31" schedState).1.meta.lastSyncTime =
      schedState.meta.lastSyncTime ∧
    (triggerSync true none 9 "2025-12-31" schedState).2 = 1 :=
  sync_request_failure_leaves_records_untouched schedState 9 "2025-12-31"
    (by decide) (by decide)

/-- C9 — implicit.  A trigger that runs online, not already `'syncing'`, with
an empty pending set makes no network request, changes no meal row (so no
server-side record is adopted and no cleanup runs), does not advance
`lastSyncTime`, and leaves the persisted status `'idle'`. -/
theorem empty_pending_cycle_pulls_nothing
    (s : AppState) (resp : Option ServerResponse) (now : Nat) (cutoff : String)
    (hns : SyncMetaService.getSyncStatus s.meta ≠ MetaStatus.syncing)
    (hp : OfflineMealsService.getPending s.meals = []) :
    (triggerSync true resp now cutoff s).1.meals = s.meals ∧
    (triggerSync true resp now cutoff s).1.meta.lastSyncTime =
      s.meta.lastSyncTime ∧
    (triggerSync true resp now cutoff s).1.meta.syncStatus =
      some MetaStatus.idle ∧
    (triggerSync true resp now cutoff s).2 = 0 := by
  refine ⟨?_, ?_, ?_, ?_⟩ <;>
    simp [triggerSync, hns, hp, SyncMetaService.setSyncStatus]

/-- Witness for C9: a store whose only row is already `'SYNCED'`. -/
theorem empty_pending_cycle_pulls_nothing_witness :
    (triggerSync true (some conflictResp) 9 "2025-12-31"
        noPendingState).1.meals = noPendingState.meals ∧
    (triggerSync true (some conflictResp) 9 "2025-12-31"
        noPendingState).1.meta.lastSyncTime =
      noPendingState.meta.lastSyncTime ∧
    (triggerSync true (some conflictResp) 9 "2025-12-31"
        noPendingState).1.meta.syncStatus = some MetaStatus.idle ∧
    (triggerSync true (some conflictResp) 9 "2025-12-31"
        noPendingState).2 = 0 :=
  empty_pending_cycle_pulls_nothing noPendingState (some conflictResp) 9
    "2025-12-31" (by decide) (by decide)

/-- C4 — temporal.  An offline trigger is a complete no-op; a trigger that
reads the persisted status `'syncing'` (the state written before the network
request of an in-flight cycle, `inFlight s`) is a complete no-op — no
request, no record or metadata write, no error state; and a cycle that does
proceed issues exactly one request, so two rapid triggers with one cycle
in flight make exactly one network call in total. -/
theorem offline_or_inflight_trigger_is_noop
    (s : AppState) (resp resp2 : Option ServerResponse) (now now2 : Nat)
    (cutoff cutoff2 : String) (b2 : Bool)
    (hns : SyncMetaService.getSyncStatus s.meta ≠ MetaStatus.syncing)
    (hp : OfflineMealsService.getPending s.meals ≠ []) :
    triggerSync false resp now cutoff s = (s, 0) ∧
    triggerSync b2 resp2 now2 cutoff2 (inFlight s) = (inFlight s, 0) ∧
    (triggerSync true resp now cutoff s).2 = 1 := by
  have hpe : (OfflineMealsService.getPending s.meals).isEmpty = false := by
    cases hgp : OfflineMealsService.getPending s.meals with
    | nil => exact absurd hgp hp
    | cons a l => rfl
  refine ⟨rfl, ?_, ?_⟩
  · exact triggerSync_noop_of_syncing b2 resp2 now2 cutoff2 (inFlight s) rfl
  · cases resp with
    | none => simp [triggerSync, hns, hpe]
    | some r => simp [triggerSync, hns, hpe]

/-- Witness for C4 at a concrete one-pending-row state. -/
theorem offline_or_inflight_trigger_is_noop_witness :
    triggerSync false (some conflictResp) 6 "2025-12-31" schedState =
      (schedState, 0) ∧
    triggerSync true none 7 "2025-12-31" (inFlight schedState) =
      (inFlight schedState, 0) ∧
    (triggerSync true (some conflictResp) 6 "2025-12-31" schedState).2 = 1 :=
  offline_or_inflight_trigger_is_noop schedState (some conflictResp) none 6 7
    "2025-12-31" "2025-12-31" true (by decide) (by decide)

/-- C10 — temporal.  A persisted `'syncing'` value makes every future
trigger a permanent no-op: any sequence of triggers, whatever their
environments, returns the state unchanged and issues zero network requests,
so nothing ever resets the stuck status. -/
theorem stuck_syncing_blocks_all_future_triggers
    (inputs : List (Bool × Option ServerResponse × Nat × String))
    (s : AppState)
    (h : SyncMetaService.getSyncStatus s.meta = MetaStatus.syncing) :
    runTriggers inputs s = (s, 0) := by
  unfold runTriggers
  generalize (0 : Nat) = k
  induction inputs generalizing k with
  | nil => rfl
  | cons a l ih =>
      have hnoop := triggerSync_noop_of_syncing a.1 a.2.1 a.2.2.1 a.2.2.2 s h
      simp only [List.foldl, hnoop, Nat.add_zero]
      exact ih k

/-- Witness for C10: a burst of three triggers against a stuck state. -/
theorem stuck_syncing_blocks_all_future_triggers_witness :
    SyncMetaService.getSyncStatus stuckState.meta = MetaStatus.syncing ∧
    runTriggers burstInputs stuckState = (stuckState, 0) :=
  ⟨by decide, stuck_syncing_blocks_all_future_triggers burstInputs stuckState
    (by decide)⟩

/-- C3 counterexample.  The claim quantifies over every field-change set not
containing `serverId` or `syncStatus`; the TypeScript type of `update` is
`Partial<CachedMeal>`, so `{ clientId: "stolen" }` is such a change set, and
`update` spreads it into the row before forcing `updatedAt`/`syncStatus` —
the existing record's clientId is rewritten, contradicting "clientId remains
unchanged". -/
theorem update_rewrites_clientId_cex :
    cexChanges3.serverId = none ∧ cexChanges3.syncStatus = none ∧
    cexTable3.rows.map (fun m => m.clientId) = ["orig"] ∧
    (OfflineMealsService.update 1 cexChanges3 5 cexTable3).rows.map
      (fun m => m.clientId) = ["stolen"] := by
  decide

/-- C3 — amended.  For every existing record and every field-change set
containing none of `serverId`, `syncStatus`, `clientId`, `createdAt`, a local
edit via `update` sets `syncStatus` to `'PENDING'` and refreshes `updatedAt`
— even if the record was `'SYNCED'` — while `serverId`, `clientId` and
`createdAt` are unchanged. -/
theorem update_resets_sync_and_preserves_identity
    (t : MealsTable) (i now : Nat) (c : MealChanges) (m : CachedMeal)
    (hm : m ∈ t.rows) (hid : m.id = i)
    (hsv : c.serverId = none) ( _hss : c.syncStatus = none)
    (hcid : c.clientId = none) (hca : c.createdAt = none) :
    EditResetsSync m now (OfflineMealsService.update i c now t) := by
  refine ⟨updateRow c now m, ?_, ?_, ?_, ?_, ?_, ?_, ?_⟩
  · have hmem := List.mem_map_of_mem (fun r =>
      if r.id = i then updateRow c now r else r) hm
    simpa [OfflineMealsService.update, hid] using hmem
  · simp [updateRow, applyChanges]
  · rfl
  · rfl
  · simp [updateRow, applyChanges, hsv, setOpt]
  · simp [updateRow, applyChanges, hcid]
  · simp [updateRow, applyChanges, hca]

/-- Witness for the amended C3: edit a synced row's name and calories. -/
theorem update_resets_sync_and_preserves_identity_witness :
    EditResetsSync mealASynced 6
      (OfflineMealsService.update 1 editChanges 6 ⟨[mealASynced], 2⟩) :=
  update_resets_sync_and_preserves_identity ⟨[mealASynced], 2⟩ 1 6 editChanges
    mealASynced (by decide) (by decide) rfl rfl rfl rfl

/-- C5 — functional correctness of the retention policy.  In a store with
distinct primary keys, cleanup keeps a row iff it was there before and it is
not both `'SYNCED'` and dated strictly before the cutoff: `'PENDING'` and
`'CONFLICT'` rows are never deleted regardless of age, and a `'SYNCED'` row
dated exactly at the cutoff is preserved while one dated any earlier day is
evicted. -/
theorem cleanup_evicts_exactly_old_synced
    (t : MealsTable) (cutoff : String) (m : CachedMeal)
    (hids : (t.rows.map (fun r => r.id)).Nodup) :
    m ∈ (CacheCleanupService.cleanupExpired cutoff t).1.rows ↔
      m ∈ t.rows ∧
        ¬(m.syncStatus = SyncStatus.SYNCED ∧ strLt m.recordDate cutoff = true) := by
  have key : ∀ x ∈ t.rows,
      ((((t.rows.filter (fun r => r.syncStatus == SyncStatus.SYNCED &&
          strLt r.recordDate cutoff)).map (fun r => r.id)).contains x.id) = true ↔
        (x.syncStatus = SyncStatus.SYNCED ∧ strLt x.recordDate cutoff = true)) := by
    intro x hx
    constructor
    · intro hc
      have hmem : x.id ∈ (t.rows.filter (fun r =>
          r.syncStatus == SyncStatus.SYNCED &&
          strLt r.recordDate cutoff)).map (fun r => r.id) := by
        simpa using hc
      obtain ⟨y, hy, hyx⟩ := List.mem_map.mp hmem
      rw [List.mem_filter] at hy
      obtain ⟨hyrows, hyp⟩ := hy
      have hxy : y = x := List.inj_on_of_nodup_map hids hyrows hx hyx
      rw [← hxy]
      simpa [Bool.and_eq_true, beq_iff_eq] using hyp
    · intro hpred
      have hxf : x ∈ t.rows.filter (fun r =>
          r.syncStatus == SyncStatus.SYNCED && strLt r.recordDate cutoff) := by
        rw [List.mem_filter]
        exact ⟨hx, by simp [hpred.1, hpred.2]⟩
      have : x.id ∈ (t.rows.filter (fun r =>
          r.syncStatus == SyncStatus.SYNCED &&
          strLt r.recordDate cutoff)).map (fun r => r.id) :=
        List.mem_map_of_mem (fun r => r.id) hxf
      simpa using this
  unfold CacheCleanupService.cleanupExpired
  constructor
  · intro hmem
    rw [List.mem_filter] at hmem
    obtain ⟨hm, hb⟩ := hmem
    refine ⟨hm, ?_⟩
    intro hpred
    have := (key m hm).mpr hpred
    rw [this] at hb
    exact absurd hb (by decide)
  · rintro ⟨hm, hnp⟩
    rw [List.mem_filter]
    refine ⟨hm, ?_⟩
    cases hc : (((t.rows.filter (fun r => r.syncStatus == SyncStatus.SYNCED &&
        strLt r.recordDate cutoff)).map (fun r => r.id)).contains m.id) with
    | false => rfl
    | true => exact absurd ((key m hm).mp hc) hnp

/-- Witness for C5 on the retention-boundary store: applying the theorem to
the day-older row, and evaluating the cleanup — the row at the cutoff
(id 1) and the old pending row (id 3) survive; the day-older synced row
(id 2) is evicted. -/
theorem cleanup_evicts_exactly_old_synced_witness :
    (mealDayOlder ∈
        (CacheCleanupService.cleanupExpired "2026-09-11" retentionTable).1.rows ↔
      mealDayOlder ∈ retentionTable.rows ∧
        ¬(mealDayOlder.syncStatus = SyncStatus.SYNCED ∧
          strLt mealDayOlder.recordDate "2026-09-11" = true)) ∧
    (CacheCleanupService.cleanupExpired "2026-09-11" retentionTable).1.rows.map
      (fun m => m.id) = [1, 3] :=
  ⟨cleanup_evicts_exactly_old_synced retentionTable "2026-09-11" mealDayOlder
    (by decide), by decide⟩

/-- C1 — the conflict scenario evaluated on the code.  Two pending rows with
clientIds "ca", "cb"; the server flags "cb" in `conflicts` and returns "ca"
in `server_meals` with server id 101.  After the cycle, "ca" is `'SYNCED'`
with serverId 101 as the claim states, but "cb" is left `'PENDING'` — the
code contains no path that ever assigns `'CONFLICT'`, although the
`CachedMeal` type declares it — and the cycle still completes, recording
`'idle'` and advancing `lastSyncTime`. -/
theorem conflicted_record_left_pending :
    ((triggerSync true (some conflictResp) 9 "2025-12-31"
        conflictState).1.meals.rows.map
      (fun m => (m.clientId, m.syncStatus, m.serverId))) =
      [("ca", SyncStatus.SYNCED, some 101),
       ("cb", SyncStatus.PENDING, none)] ∧
    (triggerSync true (some conflictResp) 9 "2025-12-31"
        conflictState).1.meta =
      ⟨some 9, some MetaStatus.idle⟩ := by
  decide

/-- Helper: adopting one server record preserves the SYNCED-has-serverId
invariant (both branches write `serverId := some sm.id`). -/
theorem syncedInv_mergeOne (now : Nat) (sm : ServerMeal) (t : MealsTable)
    (h : SyncedHasServerId t) :
    SyncedHasServerId (OfflineMealsService.mergeOne now t sm) := by
  intro m2 hm2
  unfold OfflineMealsService.mergeOne at hm2
  cases hf : t.rows.find? (fun m => m.clientId == sm.client_id) with
  | some lm =>
      rw [hf] at hm2
      simp only [List.mem_map] at hm2
      obtain ⟨m, hm, hfm⟩ := hm2
      by_cases hid : m.id = lm.id
      · rw [← hfm]; simp [hid, serverOverwrite]
      · rw [← hfm]; rw [if_neg hid]; exact h m hm
  | none =>
      rw [hf] at hm2
      simp only [List.mem_append, List.mem_singleton] at hm2
      rcases hm2 with hm | rfl
      · exact h m2 hm
      · simp [serverInsertRow]

/-- Helper: a whole merge preserves the SYNCED-has-serverId invariant. -/
theorem syncedInv_merge (sms : List ServerMeal) (now : Nat) (t : MealsTable)
    (h : SyncedHasServerId t) :
    SyncedHasServerId (OfflineMealsService.mergeFromServer sms now t) := by
  induction sms generalizing t with
  | nil => exact h
  | cons sm rest ih => exact ih _ (syncedInv_mergeOne now sm t h)

/-- C7 — invariant.  Every store operation (`add`, `update`, `markSynced`,
`mergeFromServer`, `delete`, cache cleanup) preserves the invariant that a
`'SYNCED'` row has a non-null `serverId`. -/
theorem all_ops_preserve_synced_has_serverId
    (t : MealsTable) (nm : NewMeal) (g : String) (now i sid : Nat)
    (c : MealChanges) (cid : String) (sms : List ServerMeal) (cutoff : String)
    (h : SyncedHasServerId t) :
    SyncedHasServerId (OfflineMealsService.add nm g now t).2 ∧
    SyncedHasServerId (OfflineMealsService.update i c now t) ∧
    SyncedHasServerId (OfflineMealsService.markSynced cid sid now t) ∧
    SyncedHasServerId (OfflineMealsService.mergeFromServer sms now t) ∧
    SyncedHasServerId (OfflineMealsService.delete i t) ∧
    SyncedHasServerId ((CacheCleanupService.cleanupExpired cutoff t).1) := by
  refine ⟨?_, ?_, ?_, syncedInv_merge sms now t h, ?_, ?_⟩
  · intro m2 hm2 hs
    unfold OfflineMealsService.add at hm2
    simp only [List.mem_append, List.mem_singleton] at hm2
    rcases hm2 with hm | rfl
    · exact h m2 hm hs
    · simp at hs
  · intro m2 hm2
    unfold OfflineMealsService.update at hm2
    simp only [List.mem_map] at hm2
    obtain ⟨m, hm, hfm⟩ := hm2
    by_cases hid : m.id = i
    · rw [← hfm]; intro hs; rw [if_pos hid] at hs
      simp [updateRow] at hs
    · rw [← hfm]; rw [if_neg hid]; exact h m hm
  · intro m2 hm2
    unfold OfflineMealsService.markSynced at hm2
    cases hf : t.rows.find? (fun m => m.clientId == cid) with
    | some lm =>
        rw [hf] at hm2
        simp only [List.mem_map] at hm2
        obtain ⟨m, hm, hfm⟩ := hm2
        by_cases hid : m.id = lm.id
        · rw [← hfm]; simp [hid, markSyncedRow]
        · rw [← hfm]; rw [if_neg hid]; exact h m hm
    | none =>
        rw [hf] at hm2
        exact h m2 hm2
  · intro m2 hm2
    unfold OfflineMealsService.delete at hm2
    rw [List.mem_filter] at hm2
    exact h m2 hm2.1
  · intro m2 hm2
    unfold CacheCleanupService.cleanupExpired at hm2
    rw [List.mem_filter] at hm2
    exact h m2 hm2.1

/-- Witness for C7: all six operations applied to the two-pending-row
store. -/
theorem all_ops_preserve_synced_has_serverId_witness :
    SyncedHasServerId conflictTable ∧
    (SyncedHasServerId
        (OfflineMealsService.add newMealFx "cg" 7 conflictTable).2 ∧
      SyncedHasServerId
        (OfflineMealsService.update 1 editChanges 7 conflictTable) ∧
      SyncedHasServerId
        (OfflineMealsService.markSynced "ca" 101 7 conflictTable) ∧
      SyncedHasServerId
        (OfflineMealsService.mergeFromServer [serverMealA, serverMealD] 7
          conflictTable) ∧
      SyncedHasServerId (OfflineMealsService.delete 1 conflictTable) ∧
      SyncedHasServerId
        ((CacheCleanupService.cleanupExpired "2025-12-31" conflictTable).1)) :=
  ⟨by unfold SyncedHasServerId; decide,
   all_ops_preserve_synced_has_serverId conflictTable newMealFx "cg" 7 1 101
     editChanges "ca" [serverMealA, serverMealD] "2025-12-31"
     (by unfold SyncedHasServerId; decide)⟩

/-- Helper: `PreservesIds` is reflexive. -/
theorem preservesIds_refl (t : MealsTable) : PreservesIds t t := by
  intro m hm
  exact ⟨m, hm, rfl, rfl⟩

/-- Helper: `PreservesIds` composes. -/
theorem preservesIds_trans {t1 t2 t3 : MealsTable}
    (h12 : PreservesIds t1 t2) (h23 : PreservesIds t2 t3) :
    PreservesIds t1 t3 := by
  intro m hm
  obtain ⟨m2, hm2, hid2, hcid2⟩ := h12 m hm
  obtain ⟨m3, hm3, hid3, hcid3⟩ := h23 m2 hm2
  exact ⟨m3, hm3, hid3.trans hid2, hcid3.trans hcid2⟩

/-- Helper: adopting one server record never deletes a row and never touches
a surviving row's primary key or clientId. -/
theorem preservesIds_mergeOne (now : Nat) (sm : ServerMeal) (t : MealsTable) :
    PreservesIds t (OfflineMealsService.mergeOne now t sm) := by
  intro m hm
  unfold OfflineMealsService.mergeOne
  cases hf : t.rows.find? (fun r => r.clientId == sm.client_id) with
  | some lm =>
      refine ⟨_, List.mem_map_of_mem _ hm, ?_, ?_⟩ <;>
        by_cases hid : m.id = lm.id <;> simp [hid, serverOverwrite]
  | none =>
      exact ⟨m, by simp [hm], rfl, rfl⟩

/-- Helper: a whole merge preserves every existing row's id and clientId. -/
theorem preservesIds_merge (sms : List ServerMeal) (now : Nat)
    (t : MealsTable) :
    PreservesIds t (OfflineMealsService.mergeFromServer sms now t) := by
  induction sms generalizing t with
  | nil => exact preservesIds_refl t
  | cons sm rest ih =>
      exact preservesIds_trans (preservesIds_mergeOne now sm t) (ih _)

/-- C8 counterexample.  `update` is part of the public interface and accepts
an arbitrary `Partial<CachedMeal>`; passing `{ clientId: "hijacked" }`
changes the existing record's clientId, so clientId is not immutable under
every partial-change set. -/
theorem update_hijacks_clientId_cex :
    ¬ PreservesIds cexTable8
      (OfflineMealsService.update 4 cexChanges8 9 cexTable8) := by
  unfold PreservesIds
  decide

/-- C8 — amended.  `clientId` is assigned at creation (`add` stores the
generated UUID verbatim), and is never changed by `markSynced`, by
`mergeFromServer`, or by `update` with any change set that does not itself
contain `clientId`: every pre-existing row survives with its id and clientId
intact. -/
theorem clientId_assigned_once_amended
    (t : MealsTable) (nm : NewMeal) (g : String) (now i sid : Nat)
    (c : MealChanges) (cid : String) (sms : List ServerMeal)
    (hc : c.clientId = none) :
    (OfflineMealsService.add nm g now t).1.clientId = g ∧
    PreservesIds t (OfflineMealsService.update i c now t) ∧
    PreservesIds t (OfflineMealsService.markSynced cid sid now t) ∧
    PreservesIds t (OfflineMealsService.mergeFromServer sms now t) := by
  refine ⟨rfl, ?_, ?_, preservesIds_merge sms now t⟩
  · intro m hm
    refine ⟨_, List.mem_map_of_mem _ hm, ?_, ?_⟩ <;>
      by_cases hid : m.id = i <;> simp [hid, updateRow, applyChanges, hc]
  · intro m hm
    unfold OfflineMealsService.markSynced
    cases hf : t.rows.find? (fun r => r.clientId == cid) with
    | some lm =>
        refine ⟨_, List.mem_map_of_mem _ hm, ?_, ?_⟩ <;>
          by_cases hid : m.id = lm.id <;> simp [hid, markSyncedRow]
    | none => exact ⟨m, hm, rfl, rfl⟩

/-- Witness for the amended C8 on the two-pending-row store. -/
theorem clientId_assigned_once_amended_witness :
    (OfflineMealsService.add newMealFx "cg" 7 conflictTable).1.clientId =
      "cg" ∧
    PreservesIds conflictTable
      (OfflineMealsService.update 1 editChanges 7 conflictTable) ∧
    PreservesIds conflictTable
      (OfflineMealsService.markSynced "ca" 101 7 conflictTable) ∧
    PreservesIds conflictTable
      (OfflineMealsService.mergeFromServer [serverMealA, serverMealD] 7
        conflictTable) :=
  clientId_assigned_once_amended conflictTable newMealFx "cg" 7 1 101
    editChanges "ca" [serverMealA, serverMealD] rfl

/-- Helper: `mergeOne` keeps the table well formed — the overwrite branch
keeps every primary key, the insert branch uses the fresh counter value. -/
theorem wfIds_mergeOne (now : Nat) (sm : ServerMeal) (t : MealsTable)
    (h : WFIds t) : WFIds (OfflineMealsService.mergeOne now t sm) := by
  obtain ⟨hnd, hlt⟩ := h
  unfold OfflineMealsService.mergeOne
  cases hf : t.rows.find? (fun r => r.clientId == sm.client_id) with
  | some lm =>
      have hids : ∀ m ∈ t.rows,
          ((fun r => r.id) ∘
            (fun r => if r.id = lm.id then serverOverwrite sm now r else r)) m =
            (fun r => r.id) m := by
        intro m hm
        by_cases hid : m.id = lm.id <;>
          simp [Function.comp, hid, serverOverwrite]
      constructor
      · rw [List.map_map]
        rw [List.map_congr_left hids]
        exact hnd
      · intro m2 hm2
        obtain ⟨m, hm, hfm⟩ := List.mem_map.mp hm2
        have hsame : m2.id = m.id := by
          rw [← hfm]
          by_cases hid : m.id = lm.id <;> simp [hid, serverOverwrite]
        rw [hsame]
        exact hlt m hm
  | none =>
      constructor
      · have hform : (t.rows ++ [serverInsertRow sm t.nextId now]).map
            (fun m => m.id) =
            t.rows.map (fun m => m.id) ++ [t.nextId] := by
          simp [serverInsertRow]
        rw [hform, List.nodup_append]
        refine ⟨hnd, by simp, ?_⟩
        intro x hx hx1
        rw [List.mem_singleton] at hx1
        obtain ⟨m, hm, hfm⟩ := List.mem_map.mp hx
        rw [hx1] at hfm
        exact absurd hfm (Nat.ne_of_lt (hlt m hm))
      · intro m2 hm2
        rcases List.mem_append.mp hm2 with hm | hm
        · exact Nat.lt_succ_of_lt (hlt m2 hm)
        · rw [List.mem_singleton] at hm
          rw [hm]
          exact Nat.lt_succ_self _



/-- Helper: `mergeOne` never decreases the auto-increment counter. -/
theorem nextId_mono_mergeOne (now : Nat) (sm : ServerMeal) (t : MealsTable) :
    t.nextId ≤ (OfflineMealsService.mergeOne now t sm).nextId := by
  unfold OfflineMealsService.mergeOne
  cases hf : t.rows.find? (fun r => r.clientId == sm.client_id) with
  | some lm => exact Nat.le_refl _
  | none => exact Nat.le_succ _

/-- Helper: in a well-formed table, a row whose clientId differs from the
adopted record's is carried through `mergeOne` literally unchanged. -/
theorem row_untouched_mergeOne (now : Nat) (sm : ServerMeal) (t : MealsTable)
    (m : CachedMeal) (hwf : WFIds t) (hm : m ∈ t.rows)
    (hne : m.clientId ≠ sm.client_id) :
    m ∈ (OfflineMealsService.mergeOne now t sm).rows := by
  unfold OfflineMealsService.mergeOne
  cases hf : t.rows.find? (fun r => r.clientId == sm.client_id) with
  | some lm =>
      have hlmmem : lm ∈ t.rows := List.mem_of_find?_eq_some hf
      have hlmcid : lm.clientId = sm.client_id := by
        simpa [beq_iff_eq] using List.find?_some hf
      have hidne : ¬(m.id = lm.id) := by
        intro heq
        have hmeq : m = lm := List.inj_on_of_nodup_map hwf.1 hm hlmmem heq
        exact hne (by rw [hmeq, hlmcid])
      simpa [hidne] using List.mem_map_of_mem
        (fun r => if r.id = lm.id then serverOverwrite sm now r else r) hm
  | none => exact List.mem_append_left _ hm

/-- Helper: every row after `mergeOne` either shares its clientId with some
pre-existing row or carries the adopted record's clientId. -/
theorem mergeOne_clientIds_subset (now : Nat) (sm : ServerMeal)
    (t : MealsTable) (m1 : CachedMeal)
    (hm1 : m1 ∈ (OfflineMealsService.mergeOne now t sm).rows) :
    (∃ m ∈ t.rows, m.clientId = m1.clientId) ∨
      m1.clientId = sm.client_id := by
  unfold OfflineMealsService.mergeOne at hm1
  cases hf : t.rows.find? (fun r => r.clientId == sm.client_id) with
  | some lm =>
      rw [hf] at hm1
      simp only [List.mem_map] at hm1
      obtain ⟨m, hm, hfm⟩ := hm1
      left
      refine ⟨m, hm, ?_⟩
      rw [← hfm]
      by_cases hid : m.id = lm.id <;> simp [hid, serverOverwrite]
  | none =>
      rw [hf] at hm1
      simp only [List.mem_append, List.mem_singleton] at hm1
      rcases hm1 with hm | rfl
      · exact Or.inl ⟨m1, hm, rfl⟩
      · exact Or.inr rfl

/-- Helper: `mergeOne` keeps the table's clientIds pairwise distinct — the
overwrite branch rewrites no clientId, the insert branch adds a clientId the
lookup just showed absent. -/
theorem cids_nodup_mergeOne (now : Nat) (sm : ServerMeal) (t : MealsTable)
    (hcnd : (t.rows.map (fun m => m.clientId)).Nodup) :
    ((OfflineMealsService.mergeOne now t sm).rows.map
      (fun m => m.clientId)).Nodup := by
  unfold OfflineMealsService.mergeOne
  cases hf : t.rows.find? (fun r => r.clientId == sm.client_id) with
  | some lm =>
      have hcids : ∀ m ∈ t.rows,
          ((fun r => r.clientId) ∘
            (fun r => if r.id = lm.id then serverOverwrite sm now r else r)) m =
            (fun r => r.clientId) m := by
        intro m hm
        by_cases hid : m.id = lm.id <;>
          simp [Function.comp, hid, serverOverwrite]
      rw [List.map_map]
      rw [List.map_congr_left hcids]
      exact hcnd
  | none =>
      have hform : (t.rows ++ [serverInsertRow sm t.nextId now]).map
          (fun m => m.clientId) =
          t.rows.map (fun m => m.clientId) ++ [sm.client_id] := by
        simp [serverInsertRow]
      rw [hform, List.nodup_append]
      refine ⟨hcnd, by simp, ?_⟩
      intro x hx hx1
      rw [List.mem_singleton] at hx1
      obtain ⟨m, hm, hfm⟩ := List.mem_map.mp hx
      have hno := List.find?_eq_none.mp hf m hm
      rw [beq_iff_eq] at hno
      exact hno (hfm.trans hx1)

/-- Helper: in a well-formed table, an adopted copy of `sm` sitting at
primary key `j` survives adopting any record with a different clientId,
still at key `j`. -/
theorem adoptId_stable_mergeOne (now : Nat) (sm sm2 : ServerMeal)
    (t : MealsTable) (j : Nat) (hwf : WFIds t)
    (hne : sm2.client_id ≠ sm.client_id)
    (hex : ∃ m ∈ t.rows, m.id = j ∧ adoptedRow sm m) :
    ∃ m ∈ (OfflineMealsService.mergeOne now t sm2).rows,
      m.id = j ∧ adoptedRow sm m := by
  obtain ⟨m, hm, hj, had⟩ := hex
  refine ⟨m, ?_, hj, had⟩
  exact row_untouched_mergeOne now sm2 t m hwf hm (by rw [had.1]; exact Ne.symm hne)

/-- Helper: the id-pinned adopted copy survives a whole batch of records
with different clientIds. -/
theorem adoptId_stable_merge (sms : List ServerMeal) (sm : ServerMeal)
    (now j : Nat) :
    ∀ t : MealsTable, WFIds t →
      (∀ sm2 ∈ sms, sm2.client_id ≠ sm.client_id) →
      (∃ m ∈ t.rows, m.id = j ∧ adoptedRow sm m) →
      ∃ m ∈ (OfflineMealsService.mergeFromServer sms now t).rows,
        m.id = j ∧ adoptedRow sm m := by
  induction sms with
  | nil => intro t _ _ hex; exact hex
  | cons sm2 rest ih =>
      intro t hwf hni hex
      exact ih _ (wfIds_mergeOne now sm2 t hwf)
        (fun x hx => hni x (List.mem_cons_of_mem _ hx))
        (adoptId_stable_mergeOne now sm sm2 t j hwf
          (hni sm2 (List.mem_cons_self _ _)) hex)

/-- Helper: a row with a pre-existing primary key traces back through
`mergeOne` to an original row with the same key and clientId. -/
theorem old_row_mergeOne (now : Nat) (sm : ServerMeal) (t : MealsTable)
    (m1 : CachedMeal)
    (hm1 : m1 ∈ (OfflineMealsService.mergeOne now t sm).rows)
    (hlt : m1.id < t.nextId) :
    ∃ m ∈ t.rows, m.id = m1.id ∧ m.clientId = m1.clientId := by
  unfold OfflineMealsService.mergeOne at hm1
  cases hf : t.rows.find? (fun r => r.clientId == sm.client_id) with
  | some lm =>
      rw [hf] at hm1
      simp only [List.mem_map] at hm1
      obtain ⟨m, hm, hfm⟩ := hm1
      refine ⟨m, hm, ?_, ?_⟩ <;> rw [← hfm] <;>
        by_cases hid : m.id = lm.id <;> simp [hid, serverOverwrite]
  | none =>
      rw [hf] at hm1
      simp only [List.mem_append, List.mem_singleton] at hm1
      rcases hm1 with hm | rfl
      · exact ⟨m1, hm, rfl, rfl⟩
      · exact absurd hlt (by simp [serverInsertRow])

/-- Helper: a row with a pre-existing primary key traces back through a
whole merge to an original row with the same key and clientId. -/
theorem old_row_merge (sms : List ServerMeal) (now : Nat) :
    ∀ t : MealsTable, ∀ m2 ∈ (OfflineMealsService.mergeFromServer sms now t).rows,
      m2.id < t.nextId →
      ∃ m ∈ t.rows, m.id = m2.id ∧ m.clientId = m2.clientId := by
  induction sms with
  | nil => intro t m2 hm2 _; exact ⟨m2, hm2, rfl, rfl⟩
  | cons sm rest ih =>
      intro t m2 hm2 hlt
      obtain ⟨m1, hm1, hid1, hcid1⟩ := ih (OfflineMealsService.mergeOne now t sm) m2 hm2
        (lt_of_lt_of_le hlt (nextId_mono_mergeOne now sm t))
      obtain ⟨m, hm, hid0, hcid0⟩ := old_row_mergeOne now sm t m1 hm1 (by omega)
      exact ⟨m, hm, by omega, by rw [hcid0, hcid1]⟩


/-- Helper: frame part of the merge — a row whose clientId appears nowhere
in the batch survives every step unchanged. -/
theorem merge_untouched_main (sms : List ServerMeal) (now : Nat) :
    ∀ t : MealsTable, WFIds t →
      MergeUntouchedRows sms t
        (OfflineMealsService.mergeFromServer sms now t) := by
  induction sms with
  | nil => intro t _ m hm _; exact hm
  | cons sm rest ih =>
      intro t hwf m hm hforeign
      exact ih _ (wfIds_mergeOne now sm t hwf) m
        (row_untouched_mergeOne now sm t m hwf hm
          (hforeign sm (List.mem_cons_self _ _)))
        (fun sm2 h2 => hforeign sm2 (List.mem_cons_of_mem _ h2))

/-- Helper: the overwrite and insert branches of the claim, by induction on
the batch. -/
theorem merge_overwrite_insert_main (sms : List ServerMeal) (now : Nat) :
    ∀ t : MealsTable, WFIds t →
      (t.rows.map (fun m => m.clientId)).Nodup →
      (sms.map (fun sm => sm.client_id)).Nodup →
      MergeOverwritesMatch sms t
        (OfflineMealsService.mergeFromServer sms now t) ∧
      MergeInsertsForeign sms t
        (OfflineMealsService.mergeFromServer sms now t) := by
  induction sms with
  | nil =>
      intro t _ _ _
      exact ⟨fun sm hsm => absurd hsm (List.not_mem_nil sm),
             fun sm hsm => absurd hsm (List.not_mem_nil sm)⟩
  | cons sm rest ih =>
      intro t hwf hcnd hnd
      rw [List.map_cons, List.nodup_cons] at hnd
      obtain ⟨hnotin, hndrest⟩ := hnd
      have hwf1 := wfIds_mergeOne now sm t hwf
      have hcnd1 := cids_nodup_mergeOne now sm t hcnd
      have hne_rest : ∀ sm2 ∈ rest, sm2.client_id ≠ sm.client_id := by
        intro sm2 h2 heq
        exact hnotin (heq ▸ List.mem_map_of_mem (fun s => s.client_id) h2)
      obtain ⟨ihO, ihI⟩ :=
        ih (OfflineMealsService.mergeOne now t sm) hwf1 hcnd1 hndrest
      constructor
      · intro x hx m hm hmc
        rcases List.mem_cons.mp hx with rfl | hxr
        · cases hf : t.rows.find? (fun r => r.clientId == x.client_id) with
          | none =>
              have hno := List.find?_eq_none.mp hf m hm
              rw [beq_iff_eq] at hno
              exact absurd hmc hno
          | some lm =>
              have hlmmem : lm ∈ t.rows := List.mem_of_find?_eq_some hf
              have hlmcid : lm.clientId = x.client_id := by
                simpa [beq_iff_eq] using List.find?_some hf
              have hlm_eq : lm = m :=
                List.inj_on_of_nodup_map hcnd hlmmem hm (by rw [hlmcid, hmc])
              have ht1 : OfflineMealsService.mergeOne now t x =
                  { t with rows := t.rows.map (fun r =>
                      if r.id = lm.id then serverOverwrite x now r else r) } := by
                unfold OfflineMealsService.mergeOne
                rw [hf]
              have hstart : ∃ m2 ∈ (OfflineMealsService.mergeOne now t x).rows,
                  m2.id = m.id ∧ adoptedRow x m2 := by
                rw [ht1]
                refine ⟨_, List.mem_map_of_mem _ hm, ?_⟩
                rw [hlm_eq, if_pos rfl]
                constructor
                · rfl
                · unfold adoptedRow serverOverwrite
                  exact ⟨hmc, rfl, rfl, rfl, rfl, rfl, rfl, rfl, rfl, rfl,
                    rfl, rfl, rfl, rfl, rfl, rfl, rfl⟩
              obtain ⟨m2, hm2, hid2, had2⟩ :=
                adoptId_stable_merge rest x now m.id _ hwf1 hne_rest hstart
              exact ⟨m2, hm2, hid2, had2⟩
        · have hm1 : m ∈ (OfflineMealsService.mergeOne now t sm).rows :=
            row_untouched_mergeOne now sm t m hwf hm
              (by rw [hmc]; exact hne_rest x hxr)
          exact ihO x hxr m hm1 hmc
      · intro x hx hforeign
        rcases List.mem_cons.mp hx with rfl | hxr
        · cases hf : t.rows.find? (fun r => r.clientId == x.client_id) with
          | some lm =>
              have hlmmem : lm ∈ t.rows := List.mem_of_find?_eq_some hf
              have hlmcid : lm.clientId = x.client_id := by
                simpa [beq_iff_eq] using List.find?_some hf
              exact absurd hlmcid (hforeign lm hlmmem)
          | none =>
              have ht1 : OfflineMealsService.mergeOne now t x =
                  ⟨t.rows ++ [serverInsertRow x t.nextId now],
                   t.nextId + 1⟩ := by
                unfold OfflineMealsService.mergeOne
                rw [hf]
              have hstart : ∃ m2 ∈ (OfflineMealsService.mergeOne now t x).rows,
                  m2.id = t.nextId ∧ adoptedRow x m2 := by
                rw [ht1]
                refine ⟨serverInsertRow x t.nextId now, by simp, rfl, ?_⟩
                unfold adoptedRow serverInsertRow
                exact ⟨rfl, rfl, rfl, rfl, rfl, rfl, rfl, rfl, rfl, rfl, rfl,
                  rfl, rfl, rfl, rfl, rfl, rfl⟩
              obtain ⟨m2, hm2, hid2, had2⟩ :=
                adoptId_stable_merge rest x now t.nextId _ hwf1 hne_rest hstart
              exact ⟨m2, hm2, le_of_eq hid2.symm, had2⟩
        · have hforeign1 : ∀ m1 ∈ (OfflineMealsService.mergeOne now t sm).rows,
              m1.clientId ≠ x.client_id := by
            intro m1 hm1
            rcases mergeOne_clientIds_subset now sm t m1 hm1 with
              ⟨m, hm, heq⟩ | heq
            · rw [← heq]; exact hforeign m hm
            · rw [heq]; exact Ne.symm (hne_rest x hxr)
          obtain ⟨m2, hm2, hle2, had2⟩ := ihI x hxr hforeign1
          exact ⟨m2, hm2, le_trans (nextId_mono_mergeOne now sm t) hle2, had2⟩

/-- Helper: no duplication — every row that is new after the merge belongs
to a batch entry that had no local match. -/
theorem merge_new_rows_main (sms : List ServerMeal) (now : Nat) :
    ∀ t : MealsTable, WFIds t →
      MergeNewRowsForeign sms t
        (OfflineMealsService.mergeFromServer sms now t) := by
  induction sms with
  | nil =>
      intro t hwf m2 hm2 hge
      exact absurd hge (Nat.not_le.mpr (hwf.2 m2 hm2))
  | cons sm rest ih =>
      intro t hwf m2 hm2 hge
      have hm2' : m2 ∈ (OfflineMealsService.mergeFromServer rest now
          (OfflineMealsService.mergeOne now t sm)).rows := hm2
      cases hf : t.rows.find? (fun r => r.clientId == sm.client_id) with
      | some lm =>
          have ht1 : OfflineMealsService.mergeOne now t sm =
              { t with rows := t.rows.map (fun r =>
                  if r.id = lm.id then serverOverwrite sm now r else r) } := by
            unfold OfflineMealsService.mergeOne
            rw [hf]
          obtain ⟨sm2, hsm2, hcid2, hforeign2⟩ :=
            ih _ (wfIds_mergeOne now sm t hwf) m2 hm2'
              (by rw [ht1]; exact hge)
          refine ⟨sm2, List.mem_cons_of_mem _ hsm2, hcid2, ?_⟩
          intro m hm heq
          obtain ⟨m1, hm1mem, _, hcideq⟩ := preservesIds_mergeOne now sm t m hm
          exact hforeign2 m1 hm1mem (by rw [hcideq, heq])
      | none =>
          have ht1 : OfflineMealsService.mergeOne now t sm =
              ⟨t.rows ++ [serverInsertRow sm t.nextId now], t.nextId + 1⟩ := by
            unfold OfflineMealsService.mergeOne
            rw [hf]
          by_cases hge1 : t.nextId + 1 ≤ m2.id
          · obtain ⟨sm2, hsm2, hcid2, hforeign2⟩ :=
              ih _ (wfIds_mergeOne now sm t hwf) m2 hm2'
                (by rw [ht1]; exact hge1)
            refine ⟨sm2, List.mem_cons_of_mem _ hsm2, hcid2, ?_⟩
            intro m hm heq
            have hm1 : m ∈ (OfflineMealsService.mergeOne now t sm).rows := by
              rw [ht1]
              exact List.mem_append_left _ hm
            exact hforeign2 m hm1 heq
          · obtain ⟨m1, hm1, hid1, hcid1⟩ := old_row_merge rest now
              (OfflineMealsService.mergeOne now t sm) m2 hm2'
              (by rw [ht1]; show m2.id < t.nextId + 1; omega)
            rw [ht1] at hm1
            rcases List.mem_append.mp hm1 with hmo | hmn
            · have hold := hwf.2 m1 hmo
              omega
            · rw [List.mem_singleton] at hmn
              refine ⟨sm, List.mem_cons_self _ _, ?_, ?_⟩
              · rw [← hcid1, hmn]
                rfl
              · intro m hm heq
                have hno := List.find?_eq_none.mp hf m hm
                rw [beq_iff_eq] at hno
                exact hno heq

/-- C6 — functional correctness of merge-from-server.  For a well-formed
store (distinct primary keys, pairwise-distinct clientIds — clientId is the
unique correlation key) and a batch with pairwise-distinct clientIds: every
batch entry with a matching local row overwrites that row itself — same
primary key — with the server values, its serverId, and `'SYNCED'`; every
entry with no match is inserted as a new `'SYNCED'` row under a fresh
primary key; a new row appears only for such foreign entries (a matched
entry never causes an insertion, so no duplication); rows untouched by the
batch survive verbatim; and every pre-existing row keeps its primary key and
clientId.  The batch runs inside one Dexie `'rw'` transaction, so as one
transition of the model it is all-or-nothing by construction. -/
theorem merge_adopts_every_server_record
    (sms : List ServerMeal) (now : Nat) (t : MealsTable)
    (hwf : WFIds t)
    (hcnd : (t.rows.map (fun m => m.clientId)).Nodup)
    (hnd : (sms.map (fun sm => sm.client_id)).Nodup) :
    MergeOverwritesMatch sms t
      (OfflineMealsService.mergeFromServer sms now t) ∧
    MergeInsertsForeign sms t
      (OfflineMealsService.mergeFromServer sms now t) ∧
    MergeNewRowsForeign sms t
      (OfflineMealsService.mergeFromServer sms now t) ∧
    MergeUntouchedRows sms t
      (OfflineMealsService.mergeFromServer sms now t) ∧
    PreservesIds t (OfflineMealsService.mergeFromServer sms now t) :=
  ⟨(merge_overwrite_insert_main sms now t hwf hcnd hnd).1,
   (merge_overwrite_insert_main sms now t hwf hcnd hnd).2,
   merge_new_rows_main sms now t hwf,
   merge_untouched_main sms now t hwf,
   preservesIds_merge sms now t⟩

/-- Witness for C6: one matching record ("ca") and one foreign record
("cd") merged into a one-row store. -/
theorem merge_adopts_every_server_record_witness :
    MergeOverwritesMatch [serverMealA, serverMealD] mergeTable
      (OfflineMealsService.mergeFromServer [serverMealA, serverMealD] 7
        mergeTable) ∧
    MergeInsertsForeign [serverMealA, serverMealD] mergeTable
      (OfflineMealsService.mergeFromServer [serverMealA, serverMealD] 7
        mergeTable) ∧
    MergeNewRowsForeign [serverMealA, serverMealD] mergeTable
      (OfflineMealsService.mergeFromServer [serverMealA, serverMealD] 7
        mergeTable) ∧
    MergeUntouchedRows [serverMealA, serverMealD] mergeTable
      (OfflineMealsService.mergeFromServer [serverMealA, serverMealD] 7
        mergeTable) ∧
    PreservesIds mergeTable
      (OfflineMealsService.mergeFromServer [serverMealA, serverMealD] 7
        mergeTable) :=
  merge_adopts_every_server_record [serverMealA, serverMealD] 7 mergeTable
    (by unfold WFIds; decide) (by decide) (by decide)

end Prism
